import Mathlib

/-!
Region mapping of `Sources/memory.c`.

A shallow embedding of `mem_perm_str`, `mem_get_tag`, `mem_print_uc_regions`,
`mem_remap_region` and `mem_map_region_containing`.

* Machine integers are natural numbers; 64-bit wrap-around is written out
  with `wrap64` / `sub64`.
* The emulation engine, the host region query (`vm_region_64`), `dladdr` and
  libc's `qsort_b` are external collaborators.  The engine's accept/reject
  decisions and the host query are parameters; the effect of an accepted
  map/unmap on the region directory follows the interface description
  (an accepted map creates the entry, an accepted unmap destroys it, a
  rejected call changes nothing).
* Every function returns, next to its C result, the directory afterwards and
  the list of mutating engine calls it issued.
-/

namespace Aah

/-! ## Machine arithmetic -/

/-- Reduction of a natural number to an unsigned 64-bit value. -/
def wrap64 (n : Nat) : Nat := n % 2 ^ 64

/-- Unsigned 64-bit subtraction `a - b`. -/
def sub64 (a b : Nat) : Nat := (a % 2 ^ 64 + (2 ^ 64 - b % 2 ^ 64)) % 2 ^ 64

/-- Conversion of an unsigned 64-bit pattern to a 32-bit signed `int`
(truncation to the low 32 bits, two's complement). -/
def to_int32 (n : Nat) : Int :=
  if n % 2 ^ 32 < 2 ^ 31 then ((n % 2 ^ 32 : Nat) : Int)
  else ((n % 2 ^ 32 : Nat) : Int) - 2 ^ 32

/-! ## Data model -/

/-- The engine's `uc_mem_region`: `begin`, inclusive `end`, permission bits. -/
structure uc_mem_region where
  begin : Nat
  end_ : Nat
  perms : Nat
  deriving DecidableEq, Repr

/-- Engine status code; `UC_ERR_OK` is zero. -/
abbrev uc_err := Nat

/-- The success status of the engine. -/
def UC_ERR_OK : uc_err := 0

/-- A mutating call issued to the engine. -/
inductive uc_call where
  | unmap (base size : Nat)
  | map_ptr (base size perms : Nat)
  deriving DecidableEq, Repr

/-- The engine's decisions: the status it answers to an unmap request and to
a map request, given the directory at the time of the call. -/
structure uc_policy where
  unmap_status : List uc_mem_region → Nat → Nat → uc_err
  map_status : List uc_mem_region → Nat → Nat → Nat → uc_err

/-! ## Permission rendering (`mem_perm_str`, lines 3-12) -/

/-- The table `mem_perm_str`; an index outside `0..7` is outside the array. -/
def mem_perm_str (p : Nat) : Option String :=
  match p with
  | 0 => some "none"
  | 1 => some "r--"
  | 2 => some "-w-"
  | 3 => some "rw-"
  | 4 => some "--x"
  | 5 => some "r-x"
  | 6 => some "-wx"
  | 7 => some "rwx"
  | _ => none

/-- The three-character rendering described for a permission value: `r`, `w`,
`x` in positions 0, 1, 2 when bit 1, 2, 4 is set and `-` otherwise. -/
def perm_chars (p : Nat) : List Char :=
  [if p &&& 1 ≠ 0 then 'r' else '-',
   if p &&& 2 ≠ 0 then 'w' else '-',
   if p &&& 4 ≠ 0 then 'x' else '-']

/-! ## Tag lookup (`mem_get_tag`, lines 14-21) -/

/-- The function `mem_get_tag`; `dladdr` is the host's symbol lookup, which
yields the image file name when it succeeds. -/
def mem_get_tag (dladdr : Nat → Option String) (address : Nat) : String :=
  match dladdr address with
  | some dli_fname => dli_fname
  | none => "*"

/-! ## Overlap tests -/

/-- The overlap test of `mem_remap_region` (lines 51-52): the request's first
or last address lies within the entry. -/
def overlaps (r : uc_mem_region) (address end_ : Nat) : Bool :=
  (decide (address ≥ r.begin) && decide (address ≤ r.end_)) ||
  (decide (end_ ≥ r.begin) && decide (end_ ≤ r.end_))

/-- The full interval-intersection test as the specification words it:
`new.begin <= existing.end && existing.begin <= new.end`. -/
def full_intersection (r : uc_mem_region) (address end_ : Nat) : Bool :=
  decide (address ≤ r.end_) && decide (r.begin ≤ end_)

/-! ## Engine primitives -/

/-- The inclusive last address of the extent `(base, size)`, computed as the
engine and the source do: `base + size - 1` in 64 bits. -/
def extent_end (base size : Nat) : Nat := sub64 (wrap64 (base + size)) 1

/-- Modelled from the spec: the engine's `uc_mem_unmap` is outside the
repository.  The engine answers with its status; when it accepts, the entry
with exactly the extent `(base, size)` is destroyed and nothing else changes;
when it rejects, the directory is unchanged. -/
def uc_mem_unmap (eng : uc_policy) (d : List uc_mem_region) (base size : Nat) :
    uc_err × List uc_mem_region :=
  if eng.unmap_status d base size = UC_ERR_OK then
    (UC_ERR_OK,
      d.filter (fun r => !(decide (r.begin = base) && decide (r.end_ = extent_end base size))))
  else (eng.unmap_status d base size, d)

/-- Modelled from the spec: the engine's `uc_mem_map_ptr` is outside the
repository.  The engine answers with its status; when it accepts, one entry
`[base, base + size - 1]` with the given permissions is created (enumerated
last) and nothing else changes; when it rejects, the directory is unchanged. -/
def uc_mem_map_ptr (eng : uc_policy) (d : List uc_mem_region) (base size perms : Nat) :
    uc_err × List uc_mem_region :=
  if eng.map_status d base size perms = UC_ERR_OK then
    (UC_ERR_OK, d ++ [⟨base, extent_end base size, perms⟩])
  else (eng.map_status d base size perms, d)

/-- Modelled from the spec: a reference engine that keeps mapped regions
from overlapping.  A map is rejected when the size is zero, when the extent
wraps around 64 bits, or when it intersects an existing entry; an unmap is
accepted exactly when an entry with that extent exists. -/
def reference_engine : uc_policy where
  unmap_status := fun d base size =>
    if d.any (fun r => decide (r.begin = base) && decide (r.end_ = extent_end base size))
    then UC_ERR_OK else 1
  map_status := fun d base size _ =>
    if size = 0 ∨ 2 ^ 64 < base + size ∨
        d.any (fun r => full_intersection r base (extent_end base size)) = true
    then 1 else UC_ERR_OK

/-! ## `mem_remap_region` (lines 43-73) -/

/-- What `mem_remap_region` leaves behind: its return value, the value of
`*err_ptr`, the directory, and the engine calls it issued. -/
structure remap_result where
  found : Bool
  err : uc_err
  regions : List uc_mem_region
  calls : List uc_call
  deriving DecidableEq, Repr

/-- The size the source computes for an entry: `end - begin + 1` in 64 bits. -/
def region_size_of (r : uc_mem_region) : Nat := wrap64 (sub64 r.end_ r.begin + 1)

/-- The body of the loop for an overlapping entry `r` (lines 53-67): unmap
the entry, map the requested extent with the merged permissions.  A rejected
call leaves the loop, after which the function returns `false`. -/
def remap_entry (eng : uc_policy) (d : List uc_mem_region) (address size perms : Nat)
    (err : uc_err) (r : uc_mem_region) : remap_result :=
  if (uc_mem_unmap eng d r.begin (region_size_of r)).1 ≠ UC_ERR_OK then
    ⟨false, err, (uc_mem_unmap eng d r.begin (region_size_of r)).2,
      [uc_call.unmap r.begin (region_size_of r)]⟩
  else if (uc_mem_map_ptr eng (uc_mem_unmap eng d r.begin (region_size_of r)).2
            address size (perms ||| r.perms)).1 ≠ UC_ERR_OK then
    ⟨false, err,
      (uc_mem_map_ptr eng (uc_mem_unmap eng d r.begin (region_size_of r)).2
        address size (perms ||| r.perms)).2,
      [uc_call.unmap r.begin (region_size_of r),
       uc_call.map_ptr address size (perms ||| r.perms)]⟩
  else
    ⟨true, UC_ERR_OK,
      (uc_mem_map_ptr eng (uc_mem_unmap eng d r.begin (region_size_of r)).2
        address size (perms ||| r.perms)).2,
      [uc_call.unmap r.begin (region_size_of r),
       uc_call.map_ptr address size (perms ||| r.perms)]⟩

/-- The `for` loop of `mem_remap_region` over the snapshot `regions`; `d` is
the engine's directory, untouched until the first overlapping entry. -/
def remap_scan (eng : uc_policy) (d : List uc_mem_region) (address size perms end_ : Nat)
    (err : uc_err) : List uc_mem_region → remap_result
  | [] => ⟨false, err, d, []⟩
  | r :: rs =>
    if overlaps r address end_ = true then remap_entry eng d address size perms err r
    else remap_scan eng d address size perms end_ err rs

/-- The function `mem_remap_region`; `err` is the value `*err_ptr` holds on
entry. -/
def mem_remap_region (eng : uc_policy) (d : List uc_mem_region) (address size perms : Nat)
    (err : uc_err) : remap_result :=
  remap_scan eng d address size perms (extent_end address size) err d

/-! ## `mem_map_region_containing` (lines 75-103) -/

/-- How `mem_map_region_containing` ends: the process aborts, or the function
returns with a result, the directory afterwards and the engine calls issued. -/
inductive map_outcome where
  | aborted
  | returned (ok : Bool) (regions : List uc_mem_region) (calls : List uc_call)
  deriving DecidableEq, Repr

/-- The function `mem_map_region_containing`; `vm_region_64` is the host
query, answering `none` when it does not report `KERN_SUCCESS` and the
region's base and size otherwise. -/
def mem_map_region_containing (eng : uc_policy) (vm_region_64 : Nat → Option (Nat × Nat))
    (d : List uc_mem_region) (address perms : Nat) : map_outcome :=
  match vm_region_64 address with
  | none => .returned false d []
  | some (region_address, region_size) =>
    if address < region_address ∨ address ≥ wrap64 (region_address + region_size) then
      .aborted
    else if (uc_mem_map_ptr eng d region_address region_size perms).1 ≠ UC_ERR_OK then
      let res := mem_remap_region eng (uc_mem_map_ptr eng d region_address region_size perms).2
        region_address region_size perms (uc_mem_map_ptr eng d region_address region_size perms).1
      if res.err ≠ UC_ERR_OK ∨ res.found = false then
        .returned false res.regions
          (uc_call.map_ptr region_address region_size perms :: res.calls)
      else
        .returned true res.regions
          (uc_call.map_ptr region_address region_size perms :: res.calls)
    else
      .returned true (uc_mem_map_ptr eng d region_address region_size perms).2
        [uc_call.map_ptr region_address region_size perms]

/-! ## `mem_print_uc_regions` (lines 23-41) -/

/-- The comparator block passed to `qsort_b` (line 34): the 64-bit difference
`ra->begin - rb->end`, returned as `int`. -/
def region_cmp (ra rb : uc_mem_region) : Int := to_int32 (sub64 ra.begin rb.end_)

/-- One step of the insertion sort: `x` moves left past every neighbour `y`
with `cmp y x > 0`.  The list holds the already processed prefix, nearest
neighbour first. -/
def qsort_insert {α : Type} (cmp : α → α → Int) (x : α) : List α → List α
  | [] => [x]
  | y :: ys => if 0 < cmp y x then y :: qsort_insert cmp x ys else x :: y :: ys

/-- External collaborator: libc's `qsort_b`.  The model is the insertion sort
that BSD libc's `qsort` runs on short arrays; it looks only at the sign of
the comparator. -/
def qsort_b {α : Type} (cmp : α → α → Int) (xs : List α) : List α :=
  (xs.foldl (fun acc x => qsort_insert cmp x acc) []).reverse

/-- One printed region line: begin, end, permission string, tag. -/
structure region_line where
  begin : Nat
  end_ : Nat
  perm_str : Option String
  tag : String
  deriving DecidableEq, Repr

/-- The function `mem_print_uc_regions` on the enumeration `regions` of the
directory: the printed count and the printed lines, in order. -/
def mem_print_uc_regions (dladdr : Nat → Option String) (regions : List uc_mem_region) :
    Nat × List region_line :=
  ((qsort_b region_cmp regions).length,
   (qsort_b region_cmp regions).map
     (fun r => ⟨r.begin, r.end_, mem_perm_str r.perms, mem_get_tag dladdr r.begin⟩))

/-- The directory after the entry with the extent of `e` has been destroyed. -/
def without_extent (d : List uc_mem_region) (e : uc_mem_region) : List uc_mem_region :=
  d.filter (fun r => !(decide (r.begin = e.begin) && decide (r.end_ = e.end_)))

/-! ## Arithmetic facts -/

theorem extent_end_eq (base size : Nat) (h1 : 1 ≤ size) (h2 : base + size - 1 < 2 ^ 64) :
    extent_end base size = base + size - 1 := by
  unfold extent_end sub64 wrap64
  omega

theorem region_size_of_eq (r : uc_mem_region) (h1 : r.begin ≤ r.end_) (h2 : r.end_ < 2 ^ 64)
    (h3 : r.end_ - r.begin + 1 < 2 ^ 64) : region_size_of r = r.end_ - r.begin + 1 := by
  unfold region_size_of sub64 wrap64
  omega

theorem extent_end_region (r : uc_mem_region) (h2 : r.end_ < 2 ^ 64) :
    extent_end r.begin (region_size_of r) = r.end_ := by
  unfold extent_end region_size_of sub64 wrap64
  omega

theorem lor_land_self (a b : Nat) : (a ||| b) &&& a = a := by
  apply Nat.eq_of_testBit_eq
  intro i
  simp only [Nat.testBit_land, Nat.testBit_lor]
  cases Nat.testBit a i <;> simp

theorem land_self_eq (a : Nat) : a &&& a = a := by
  apply Nat.eq_of_testBit_eq
  intro i
  simp only [Nat.testBit_land]
  cases Nat.testBit a i <;> simp

theorem lor_self_eq (a : Nat) : a ||| a = a := by
  apply Nat.eq_of_testBit_eq
  intro i
  simp only [Nat.testBit_lor]
  cases Nat.testBit a i <;> simp

theorem lor_lor_self (a b : Nat) : a ||| (a ||| b) = a ||| b := by
  apply Nat.eq_of_testBit_eq
  intro i
  simp only [Nat.testBit_lor]
  cases Nat.testBit a i <;> simp

/-! ## Engine primitives, unfolded -/

theorem uc_mem_unmap_rejected (eng : uc_policy) (d : List uc_mem_region) (base size : Nat)
    (h : eng.unmap_status d base size ≠ UC_ERR_OK) :
    uc_mem_unmap eng d base size = (eng.unmap_status d base size, d) := by
  simp [uc_mem_unmap, h]

theorem uc_mem_unmap_accepted (eng : uc_policy) (d : List uc_mem_region) (e : uc_mem_region)
    (he : e.end_ < 2 ^ 64) (h : eng.unmap_status d e.begin (region_size_of e) = UC_ERR_OK) :
    uc_mem_unmap eng d e.begin (region_size_of e) = (UC_ERR_OK, without_extent d e) := by
  simp [uc_mem_unmap, h, without_extent, extent_end_region e he]

theorem uc_mem_map_ptr_rejected (eng : uc_policy) (d : List uc_mem_region) (base size perms : Nat)
    (h : eng.map_status d base size perms ≠ UC_ERR_OK) :
    uc_mem_map_ptr eng d base size perms = (eng.map_status d base size perms, d) := by
  simp [uc_mem_map_ptr, h]

theorem uc_mem_map_ptr_accepted (eng : uc_policy) (d : List uc_mem_region) (base size perms : Nat)
    (h : eng.map_status d base size perms = UC_ERR_OK) :
    uc_mem_map_ptr eng d base size perms =
      (UC_ERR_OK, d ++ [⟨base, extent_end base size, perms⟩]) := by
  simp [uc_mem_map_ptr, h]

theorem uc_mem_unmap_fst (eng : uc_policy) (d : List uc_mem_region) (base size : Nat) :
    (uc_mem_unmap eng d base size).1 = eng.unmap_status d base size := by
  unfold uc_mem_unmap
  split <;> simp_all

theorem uc_mem_map_ptr_fst (eng : uc_policy) (d : List uc_mem_region) (base size perms : Nat) :
    (uc_mem_map_ptr eng d base size perms).1 = eng.map_status d base size perms := by
  unfold uc_mem_map_ptr
  split <;> simp_all

/-! ## The loop of `mem_remap_region` -/

theorem remap_scan_none (eng : uc_policy) (d : List uc_mem_region)
    (address size perms end_ : Nat) (err : uc_err) (snap : List uc_mem_region)
    (h : snap.find? (fun r => overlaps r address end_) = none) :
    remap_scan eng d address size perms end_ err snap = ⟨false, err, d, []⟩ := by
  induction snap with
  | nil => rfl
  | cons r rs ih =>
    rw [List.find?_cons] at h
    cases hr : overlaps r address end_ with
    | true => simp [hr] at h
    | false =>
      simp only [hr] at h
      simp [remap_scan, hr, ih h]

theorem remap_scan_some (eng : uc_policy) (d : List uc_mem_region)
    (address size perms end_ : Nat) (err : uc_err) (snap : List uc_mem_region)
    (e : uc_mem_region) (h : snap.find? (fun r => overlaps r address end_) = some e) :
    remap_scan eng d address size perms end_ err snap =
      remap_entry eng d address size perms err e := by
  induction snap with
  | nil => simp at h
  | cons r rs ih =>
    rw [List.find?_cons] at h
    cases hr : overlaps r address end_ with
    | true =>
      simp only [hr, Option.some.injEq] at h
      subst h
      simp [remap_scan, hr]
    | false =>
      simp only [hr] at h
      simp [remap_scan, hr, ih h]

theorem remap_entry_unmap_rejected (eng : uc_policy) (d : List uc_mem_region)
    (address size perms : Nat) (err : uc_err) (e : uc_mem_region)
    (h : eng.unmap_status d e.begin (region_size_of e) ≠ UC_ERR_OK) :
    remap_entry eng d address size perms err e =
      ⟨false, err, d, [uc_call.unmap e.begin (region_size_of e)]⟩ := by
  simp [remap_entry, uc_mem_unmap_rejected eng d _ _ h, h]

theorem remap_entry_found (eng : uc_policy) (d : List uc_mem_region)
    (address size perms : Nat) (err : uc_err) (e : uc_mem_region)
    (h : (remap_entry eng d address size perms err e).found = true) :
    eng.unmap_status d e.begin (region_size_of e) = UC_ERR_OK ∧
    eng.map_status (uc_mem_unmap eng d e.begin (region_size_of e)).2 address size
      (perms ||| e.perms) = UC_ERR_OK ∧
    remap_entry eng d address size perms err e =
      ⟨true, UC_ERR_OK,
        (uc_mem_unmap eng d e.begin (region_size_of e)).2 ++
          [⟨address, extent_end address size, perms ||| e.perms⟩],
        [uc_call.unmap e.begin (region_size_of e),
         uc_call.map_ptr address size (perms ||| e.perms)]⟩ := by
  unfold remap_entry at h ⊢
  rw [uc_mem_unmap_fst, uc_mem_map_ptr_fst] at h ⊢
  by_cases h1 : eng.unmap_status d e.begin (region_size_of e) = UC_ERR_OK
  · by_cases h2 : eng.map_status (uc_mem_unmap eng d e.begin (region_size_of e)).2 address size
        (perms ||| e.perms) = UC_ERR_OK
    · refine ⟨h1, h2, ?_⟩
      simp [h1, h2, uc_mem_map_ptr_accepted]
    · simp [h1, h2] at h
  · simp [h1] at h

theorem mem_without_extent (d : List uc_mem_region) (e r : uc_mem_region) :
    r ∈ without_extent d e ↔ r ∈ d ∧ ¬(r.begin = e.begin ∧ r.end_ = e.end_) := by
  simp only [without_extent, List.mem_filter, Bool.not_eq_true', Bool.and_eq_false_iff,
    decide_eq_false_iff_not, not_and_or]

/-! ## `mem_remap_region`: contract and failure paths -/

/-- C1: when `mem_remap_region` returns true for a request of size at least 1
whose last address does not wrap around 64 bits, the directory afterwards
holds an entry whose inclusive range covers `[address, address + size - 1]`
and whose permission bits include every requested bit. -/
theorem mem_remap_region_covers (eng : uc_policy) (d : List uc_mem_region)
    (address size perms : Nat) (err : uc_err)
    (hs : 1 ≤ size) (hw : address + size - 1 < 2 ^ 64)
    (h : (mem_remap_region eng d address size perms err).found = true) :
    ∃ r ∈ (mem_remap_region eng d address size perms err).regions,
      r.begin ≤ address ∧ address + size - 1 ≤ r.end_ ∧ r.perms &&& perms = perms := by
  unfold mem_remap_region at h ⊢
  cases hf : d.find? (fun r => overlaps r address (extent_end address size)) with
  | none =>
    rw [remap_scan_none eng d address size perms _ err d hf] at h
    simp at h
  | some e =>
    rw [remap_scan_some eng d address size perms _ err d e hf] at h ⊢
    obtain ⟨-, -, heq⟩ := remap_entry_found eng d address size perms err e h
    rw [heq]
    refine ⟨⟨address, extent_end address size, perms ||| e.perms⟩, by simp, le_refl _, ?_, ?_⟩
    · rw [extent_end_eq address size hs hw]
    · exact lor_land_self perms e.perms

/-- Witness for C1: the overlap-merge of `[0x1000,0x1FFF] rw-` with the
request `(0x1800, 0x1000, --x)` on the reference engine. -/
theorem mem_remap_region_covers_witness :
    (mem_remap_region reference_engine [⟨0x1000, 0x1FFF, 3⟩, ⟨0x3000, 0x3FFF, 1⟩]
        0x1800 0x1000 4 1).found = true ∧
    ∃ r ∈ (mem_remap_region reference_engine [⟨0x1000, 0x1FFF, 3⟩, ⟨0x3000, 0x3FFF, 1⟩]
        0x1800 0x1000 4 1).regions,
      r.begin ≤ 0x1800 ∧ 0x1800 + 0x1000 - 1 ≤ r.end_ ∧ r.perms &&& 4 = 4 :=
  ⟨by decide,
   mem_remap_region_covers reference_engine [⟨0x1000, 0x1FFF, 3⟩, ⟨0x3000, 0x3FFF, 1⟩]
     0x1800 0x1000 4 1 (by decide) (by decide) (by decide)⟩

/-- C2: when the first entry `e` (in enumeration order) that overlaps the
request is found and the engine accepts both calls, `mem_remap_region`
unmaps exactly `e`'s extent (base `e.begin`, size `e.end - e.begin + 1`),
maps the extent `(address, size)` with permissions exactly `perms | e.perms`,
returns true, and leaves every other directory entry in place: the directory
afterwards is the old one without `e`'s extent, followed by the new entry. -/
theorem mem_remap_region_replaces_first_overlap (eng : uc_policy) (d : List uc_mem_region)
    (address size perms : Nat) (err : uc_err) (e : uc_mem_region)
    (hfind : d.find? (fun r => overlaps r address (extent_end address size)) = some e)
    (hwf : e.begin ≤ e.end_ ∧ e.end_ < 2 ^ 64 ∧ e.end_ - e.begin + 1 < 2 ^ 64)
    (hunmap : eng.unmap_status d e.begin (e.end_ - e.begin + 1) = UC_ERR_OK)
    (hmap : eng.map_status (without_extent d e) address size (perms ||| e.perms) = UC_ERR_OK) :
    (mem_remap_region eng d address size perms err).found = true ∧
    (mem_remap_region eng d address size perms err).err = UC_ERR_OK ∧
    (mem_remap_region eng d address size perms err).calls =
      [uc_call.unmap e.begin (e.end_ - e.begin + 1),
       uc_call.map_ptr address size (perms ||| e.perms)] ∧
    (mem_remap_region eng d address size perms err).regions =
      without_extent d e ++ [⟨address, extent_end address size, perms ||| e.perms⟩] ∧
    (∀ r ∈ d, ¬(r.begin = e.begin ∧ r.end_ = e.end_) →
      r ∈ (mem_remap_region eng d address size perms err).regions) ∧
    (∀ r ∈ (mem_remap_region eng d address size perms err).regions,
      r ∈ d ∨ r = ⟨address, extent_end address size, perms ||| e.perms⟩) := by
  obtain ⟨hbe, he64, hsz⟩ := hwf
  have hrs : region_size_of e = e.end_ - e.begin + 1 := region_size_of_eq e hbe he64 hsz
  rw [← hrs] at hunmap
  have hres : mem_remap_region eng d address size perms err =
      ⟨true, UC_ERR_OK,
        without_extent d e ++ [⟨address, extent_end address size, perms ||| e.perms⟩],
        [uc_call.unmap e.begin (region_size_of e),
         uc_call.map_ptr address size (perms ||| e.perms)]⟩ := by
    unfold mem_remap_region
    rw [remap_scan_some eng d address size perms _ err d e hfind]
    unfold remap_entry
    rw [uc_mem_unmap_accepted eng d e he64 hunmap]
    simp only [uc_mem_map_ptr_accepted eng _ _ _ _ hmap]
    simp
  rw [hres, hrs]
  refine ⟨rfl, rfl, rfl, rfl, ?_, ?_⟩
  · intro r hr hne
    exact List.mem_append_left _ ((mem_without_extent d e r).2 ⟨hr, hne⟩)
  · intro r hr
    rcases List.mem_append.1 hr with h1 | h1
    · exact Or.inl ((mem_without_extent d e r).1 h1).1
    · exact Or.inr (by simpa using h1)

/-- Witness for C2: on the directory `[0x1000,0x1FFF] rw-`, `[0x3000,0x3FFF] r--`
the request `(0x1800, 0x1000, --x)` unmaps `(0x1000, 0x1000)`, maps
`(0x1800, 0x1000)` with `rwx`, and leaves `[0x3000,0x3FFF] r--` in place. -/
theorem mem_remap_region_replaces_first_overlap_witness :
    List.find? (fun r => overlaps r 0x1800 (extent_end 0x1800 0x1000))
        [⟨0x1000, 0x1FFF, 3⟩, ⟨0x3000, 0x3FFF, 1⟩] = some ⟨0x1000, 0x1FFF, 3⟩ ∧
    (mem_remap_region reference_engine [⟨0x1000, 0x1FFF, 3⟩, ⟨0x3000, 0x3FFF, 1⟩]
        0x1800 0x1000 4 1).calls =
      [uc_call.unmap 0x1000 0x1000, uc_call.map_ptr 0x1800 0x1000 7] ∧
    (mem_remap_region reference_engine [⟨0x1000, 0x1FFF, 3⟩, ⟨0x3000, 0x3FFF, 1⟩]
        0x1800 0x1000 4 1).regions =
      [⟨0x3000, 0x3FFF, 1⟩, ⟨0x1800, 0x27FF, 7⟩] :=
  have h := mem_remap_region_replaces_first_overlap reference_engine
    [⟨0x1000, 0x1FFF, 3⟩, ⟨0x3000, 0x3FFF, 1⟩] 0x1800 0x1000 4 1 ⟨0x1000, 0x1FFF, 3⟩
    (by decide) (by decide) (by decide) (by decide)
  ⟨by decide, h.2.2.1.trans (by decide), h.2.2.2.1.trans (by decide)⟩

/-- C9: when no directory entry overlaps the request, or the engine rejects
the unmap of the first overlapping entry, `mem_remap_region` returns false,
leaves `*err_ptr` as it was, issues no map call, and leaves the directory
unchanged. -/
theorem mem_remap_region_fails_closed (eng : uc_policy) (d : List uc_mem_region)
    (address size perms : Nat) (err : uc_err)
    (h : d.find? (fun r => overlaps r address (extent_end address size)) = none ∨
      ∃ e, d.find? (fun r => overlaps r address (extent_end address size)) = some e ∧
        eng.unmap_status d e.begin (region_size_of e) ≠ UC_ERR_OK) :
    (mem_remap_region eng d address size perms err).found = false ∧
    (mem_remap_region eng d address size perms err).err = err ∧
    (mem_remap_region eng d address size perms err).regions = d ∧
    ∀ c ∈ (mem_remap_region eng d address size perms err).calls,
      ∀ b s p, c ≠ uc_call.map_ptr b s p := by
  unfold mem_remap_region
  rcases h with h | ⟨e, hfind, hrej⟩
  · rw [remap_scan_none eng d address size perms _ err d h]
    simp
  · rw [remap_scan_some eng d address size perms _ err d e hfind,
      remap_entry_unmap_rejected eng d address size perms err e hrej]
    simp

/-- Witness for C9: a request that overlaps nothing, and a request whose
overlapping entry the engine refuses to unmap. -/
theorem mem_remap_region_fails_closed_witness :
    ((mem_remap_region reference_engine [⟨0x1000, 0x1FFF, 3⟩] 0x5000 0x1000 1 1).found = false ∧
     (mem_remap_region reference_engine [⟨0x1000, 0x1FFF, 3⟩] 0x5000 0x1000 1 1).err = 1 ∧
     (mem_remap_region reference_engine [⟨0x1000, 0x1FFF, 3⟩] 0x5000 0x1000 1 1).regions =
        [⟨0x1000, 0x1FFF, 3⟩] ∧
     ∀ c ∈ (mem_remap_region reference_engine [⟨0x1000, 0x1FFF, 3⟩] 0x5000 0x1000 1 1).calls,
        ∀ b s p, c ≠ uc_call.map_ptr b s p) ∧
    ((mem_remap_region ⟨fun _ _ _ => 1, fun _ _ _ _ => 0⟩ [⟨0x1000, 0x1FFF, 3⟩]
        0x1000 0x2000 1 1).found = false ∧
     (mem_remap_region ⟨fun _ _ _ => 1, fun _ _ _ _ => 0⟩ [⟨0x1000, 0x1FFF, 3⟩]
        0x1000 0x2000 1 1).err = 1 ∧
     (mem_remap_region ⟨fun _ _ _ => 1, fun _ _ _ _ => 0⟩ [⟨0x1000, 0x1FFF, 3⟩]
        0x1000 0x2000 1 1).regions = [⟨0x1000, 0x1FFF, 3⟩] ∧
     ∀ c ∈ (mem_remap_region ⟨fun _ _ _ => 1, fun _ _ _ _ => 0⟩ [⟨0x1000, 0x1FFF, 3⟩]
        0x1000 0x2000 1 1).calls, ∀ b s p, c ≠ uc_call.map_ptr b s p) :=
  ⟨mem_remap_region_fails_closed reference_engine [⟨0x1000, 0x1FFF, 3⟩] 0x5000 0x1000 1 1
      (Or.inl (by decide)),
   mem_remap_region_fails_closed ⟨fun _ _ _ => 1, fun _ _ _ _ => 0⟩ [⟨0x1000, 0x1FFF, 3⟩]
      0x1000 0x2000 1 1 (Or.inr ⟨⟨0x1000, 0x1FFF, 3⟩, by decide, by decide⟩)⟩

/-! ## `mem_map_region_containing` -/

/-- C4: when the host region query reports no region for the address,
`mem_map_region_containing` returns false, the directory is unchanged, and no
engine map or unmap call has been issued. -/
theorem mem_map_region_containing_not_found (eng : uc_policy)
    (vm_region_64 : Nat → Option (Nat × Nat)) (d : List uc_mem_region) (address perms : Nat)
    (h : vm_region_64 address = none) :
    mem_map_region_containing eng vm_region_64 d address perms =
      map_outcome.returned false d [] := by
  simp [mem_map_region_containing, h]

/-- Witness for C4: a host without any region, a directory with one entry. -/
theorem mem_map_region_containing_not_found_witness :
    (fun _ => none : Nat → Option (Nat × Nat)) 0x5000 = none ∧
    mem_map_region_containing reference_engine (fun _ => none) [⟨0x1000, 0x1FFF, 3⟩] 0x5000 1 =
      map_outcome.returned false [⟨0x1000, 0x1FFF, 3⟩] [] :=
  ⟨rfl, mem_map_region_containing_not_found reference_engine (fun _ => none)
    [⟨0x1000, 0x1FFF, 3⟩] 0x5000 1 rfl⟩

/-! ## Permission rendering -/

/-- C8, as stated, fails at the value 0: the table renders it as `none`,
which has four characters and is not the pattern `---` the bit rule gives. -/
theorem mem_perm_str_zero_breaks_pattern :
    mem_perm_str 0 = some "none" ∧ ("none" : String).length ≠ 3 ∧
    ("none" : String).toList ≠ perm_chars 0 := by
  refine ⟨rfl, by decide, by decide⟩

/-- C8, amended: for every permission value `p` in `0..7` the lookup
`mem_perm_str[p]` is defined; 0 renders as `none`, 7 as `rwx`, 4 as `--x`;
and for every `p` in `1..7` the rendering has exactly three characters, with
`r` in position 0 iff bit 1 is set, `w` in position 1 iff bit 2 is set, `x`
in position 2 iff bit 4 is set, and `-` otherwise. -/
theorem mem_perm_str_rendering (p : Nat) (h : p < 8) :
    ∃ s, mem_perm_str p = some s ∧
      (p = 0 → s = "none") ∧ (p = 7 → s = "rwx") ∧ (p = 4 → s = "--x") ∧
      (1 ≤ p → s.length = 3 ∧ s.toList = perm_chars p) := by
  interval_cases p <;> exact ⟨_, rfl, by decide, by decide, by decide, by decide⟩

/-- Witness for the amended C8 at `r-x`. -/
theorem mem_perm_str_rendering_witness :
    5 < 8 ∧ ∃ s, mem_perm_str 5 = some s ∧
      (5 = 0 → s = "none") ∧ (5 = 7 → s = "rwx") ∧ (5 = 4 → s = "--x") ∧
      (1 ≤ 5 → s.length = 3 ∧ s.toList = perm_chars 5) :=
  ⟨by decide, mem_perm_str_rendering 5 (by decide)⟩

/-! ## Overlap test against full interval intersection -/

/-- C10: for a request range `[address, end]` with `address ≤ end`, the
overlap test of `mem_remap_region` holds exactly when the intervals
intersect and the request does not strictly contain the entry on both sides;
hence it agrees with the full interval-intersection test whenever the
request does not strictly contain the entry, in particular for the growth
pattern `address = begin`, `end ≥ entry.end`. -/
theorem overlaps_eq_full_intersection (r : uc_mem_region) (address end_ : Nat)
    (ha : address ≤ end_) :
    (overlaps r address end_ = true ↔
      (full_intersection r address end_ = true ∧ ¬(address < r.begin ∧ r.end_ < end_))) ∧
    (¬(address < r.begin ∧ r.end_ < end_) →
      overlaps r address end_ = full_intersection r address end_) ∧
    (address = r.begin → r.end_ ≤ end_ →
      overlaps r address end_ = full_intersection r address end_) := by
  have key : overlaps r address end_ = true ↔
      (full_intersection r address end_ = true ∧ ¬(address < r.begin ∧ r.end_ < end_)) := by
    simp only [overlaps, full_intersection, Bool.or_eq_true, Bool.and_eq_true,
      decide_eq_true_eq]
    omega
  have agree : ¬(address < r.begin ∧ r.end_ < end_) →
      overlaps r address end_ = full_intersection r address end_ := by
    intro hn
    rw [Bool.eq_iff_iff, key]
    exact ⟨fun h => h.1, fun h => ⟨h, hn⟩⟩
  exact ⟨key, agree, fun h1 _ => agree (by omega)⟩

/-- Witness for C10: the growth pattern on `[0x1000,0x1FFF]`, requested again
as `[0x1000,0x2FFF]`. -/
theorem overlaps_eq_full_intersection_witness :
    (0x1000 : Nat) ≤ 0x2FFF ∧
    ((overlaps ⟨0x1000, 0x1FFF, 1⟩ 0x1000 0x2FFF = true ↔
      (full_intersection ⟨0x1000, 0x1FFF, 1⟩ 0x1000 0x2FFF = true ∧
        ¬(0x1000 < (⟨0x1000, 0x1FFF, 1⟩ : uc_mem_region).begin ∧
          (⟨0x1000, 0x1FFF, 1⟩ : uc_mem_region).end_ < 0x2FFF))) ∧
    (¬(0x1000 < (⟨0x1000, 0x1FFF, 1⟩ : uc_mem_region).begin ∧
          (⟨0x1000, 0x1FFF, 1⟩ : uc_mem_region).end_ < 0x2FFF) →
      overlaps ⟨0x1000, 0x1FFF, 1⟩ 0x1000 0x2FFF =
        full_intersection ⟨0x1000, 0x1FFF, 1⟩ 0x1000 0x2FFF) ∧
    (0x1000 = (⟨0x1000, 0x1FFF, 1⟩ : uc_mem_region).begin →
      (⟨0x1000, 0x1FFF, 1⟩ : uc_mem_region).end_ ≤ 0x2FFF →
      overlaps ⟨0x1000, 0x1FFF, 1⟩ 0x1000 0x2FFF =
        full_intersection ⟨0x1000, 0x1FFF, 1⟩ 0x1000 0x2FFF)) :=
  ⟨by decide, overlaps_eq_full_intersection ⟨0x1000, 0x1FFF, 1⟩ 0x1000 0x2FFF (by decide)⟩

/-! ## `mem_map_region_containing`: success and repetition -/

theorem mem_remap_region_found (eng : uc_policy) (d : List uc_mem_region)
    (address size perms : Nat) (err : uc_err)
    (h : (mem_remap_region eng d address size perms err).found = true) :
    ∃ e, d.find? (fun r => overlaps r address (extent_end address size)) = some e ∧
      eng.map_status (uc_mem_unmap eng d e.begin (region_size_of e)).2 address size
        (perms ||| e.perms) = UC_ERR_OK ∧
      (mem_remap_region eng d address size perms err).regions =
        (uc_mem_unmap eng d e.begin (region_size_of e)).2 ++
          [⟨address, extent_end address size, perms ||| e.perms⟩] := by
  unfold mem_remap_region at h ⊢
  cases hf : d.find? (fun r => overlaps r address (extent_end address size)) with
  | none =>
    rw [remap_scan_none eng d address size perms _ err d hf] at h
    simp at h
  | some e =>
    rw [remap_scan_some eng d address size perms _ err d e hf] at h ⊢
    obtain ⟨-, hmap, heq⟩ := remap_entry_found eng d address size perms err e h
    exact ⟨e, rfl, hmap, by rw [heq]⟩

theorem no_abort_bounds (address b s : Nat) (hs : s < 2 ^ 64)
    (h : ¬(address < b ∨ address ≥ wrap64 (b + s))) :
    b ≤ address ∧ address < b + s ∧ b + s < 2 ^ 64 ∧ extent_end b s = b + s - 1 := by
  unfold extent_end sub64
  unfold wrap64 at h ⊢
  omega

theorem no_abort_begin_le_end (address b s : Nat)
    (h : ¬(address < b ∨ address ≥ wrap64 (b + s))) :
    b ≤ extent_end b s ∧ extent_end b s < 2 ^ 64 := by
  unfold extent_end sub64
  unfold wrap64 at h ⊢
  omega

/-- C3: when `mem_map_region_containing` returns true, the host query
returned a region `[base, base + size)` containing the address, and the
directory afterwards holds an entry that covers the whole host region with
permission bits that include every requested bit, on the direct path and on
the remap fallback alike. -/
theorem mem_map_region_containing_covers (eng : uc_policy)
    (vm_region_64 : Nat → Option (Nat × Nat)) (d : List uc_mem_region) (address perms : Nat)
    (d1 : List uc_mem_region) (calls : List uc_call)
    (hsz : ∀ b s, vm_region_64 address = some (b, s) → s < 2 ^ 64)
    (h : mem_map_region_containing eng vm_region_64 d address perms =
      map_outcome.returned true d1 calls) :
    ∃ base size, vm_region_64 address = some (base, size) ∧
      base ≤ address ∧ address < base + size ∧
      ∃ r ∈ d1, r.begin ≤ base ∧ base + size - 1 ≤ r.end_ ∧ r.perms &&& perms = perms := by
  cases hh : vm_region_64 address with
  | none => simp [mem_map_region_containing, hh] at h
  | some bs =>
    obtain ⟨b, s⟩ := bs
    simp only [mem_map_region_containing, hh] at h
    by_cases hab : address < b ∨ address ≥ wrap64 (b + s)
    · rw [if_pos hab] at h
      cases h
    · rw [if_neg hab] at h
      obtain ⟨hb, hlt, -, hend⟩ := no_abort_bounds address b s (hsz b s hh) hab
      refine ⟨b, s, rfl, hb, hlt, ?_⟩
      by_cases hm : eng.map_status d b s perms = UC_ERR_OK
      · rw [uc_mem_map_ptr_accepted eng d b s perms hm] at h
        simp only [ne_eq, not_true_eq_false, if_false, map_outcome.returned.injEq,
          true_and] at h
        obtain ⟨rfl, -⟩ := h
        exact ⟨⟨b, extent_end b s, perms⟩, by simp, le_refl _, by rw [hend],
          land_self_eq perms⟩
      · rw [uc_mem_map_ptr_rejected eng d b s perms hm] at h
        simp only [ne_eq, hm, not_false_eq_true, if_true] at h
        split at h
        · cases h
        · rename_i hres
          simp only [map_outcome.returned.injEq, true_and] at h
          obtain ⟨rfl, -⟩ := h
          have hfound : (mem_remap_region eng d b s perms
              (eng.map_status d b s perms)).found = true := by
            cases hfd : (mem_remap_region eng d b s perms (eng.map_status d b s perms)).found
            · exact absurd (Or.inr hfd) hres
            · rfl
          obtain ⟨e, -, -, hreg⟩ := mem_remap_region_found eng d b s perms _ hfound
          rw [hreg]
          exact ⟨⟨b, extent_end b s, perms ||| e.perms⟩, by simp, le_refl _, by rw [hend],
            lor_land_self perms e.perms⟩

/-- Witness for C3 on the fallback path: the host region `[0x1000,0x3000)`
is requested `-w-` while `[0x2000,0x2FFF] r--` is already mapped. -/
theorem mem_map_region_containing_covers_witness :
    mem_map_region_containing reference_engine (fun _ => some (0x1000, 0x2000))
        [⟨0x2000, 0x2FFF, 1⟩] 0x1800 2 =
      map_outcome.returned true [⟨0x1000, 0x2FFF, 3⟩]
        [uc_call.map_ptr 0x1000 0x2000 2, uc_call.unmap 0x2000 0x1000,
         uc_call.map_ptr 0x1000 0x2000 3] ∧
    ∃ base size, (fun _ => some (0x1000, 0x2000) : Nat → Option (Nat × Nat)) 0x1800 =
        some (base, size) ∧
      base ≤ 0x1800 ∧ 0x1800 < base + size ∧
      ∃ r ∈ [(⟨0x1000, 0x2FFF, 3⟩ : uc_mem_region)],
        r.begin ≤ base ∧ base + size - 1 ≤ r.end_ ∧ r.perms &&& 2 = 2 :=
  ⟨by decide,
   mem_map_region_containing_covers reference_engine (fun _ => some (0x1000, 0x2000))
     [⟨0x2000, 0x2FFF, 1⟩] 0x1800 2 [⟨0x1000, 0x2FFF, 3⟩]
     [uc_call.map_ptr 0x1000 0x2000 2, uc_call.unmap 0x2000 0x1000,
      uc_call.map_ptr 0x1000 0x2000 3]
     (by intro b s h; simp only [Option.some.injEq, Prod.mk.injEq] at h; omega)
     (by decide)⟩

theorem reference_engine_rejects_overlap (d : List uc_mem_region) (b s p : Nat)
    (h : reference_engine.map_status d b s p = UC_ERR_OK) :
    ∀ r ∈ d, full_intersection r b (extent_end b s) = false := by
  intro r hr
  simp only [reference_engine] at h
  split at h
  · simp [UC_ERR_OK] at h
  · rename_i hn
    simp only [not_or] at hn
    have h3 := hn.2.2
    rw [Bool.not_eq_true, List.any_eq_false] at h3
    simpa using h3 r hr

theorem overlaps_imp_full_intersection (r : uc_mem_region) (address end_ : Nat)
    (ha : address ≤ end_) (h : overlaps r address end_ = true) :
    full_intersection r address end_ = true := by
  simp only [overlaps, full_intersection, Bool.or_eq_true, Bool.and_eq_true,
    decide_eq_true_eq] at h ⊢
  omega

theorem without_extent_append_new (d : List uc_mem_region) (b ee q : Nat) (hbe : b ≤ ee)
    (hd : ∀ r ∈ d, full_intersection r b ee = false) :
    without_extent (d ++ [⟨b, ee, q⟩]) ⟨b, ee, q⟩ = d := by
  unfold without_extent
  rw [List.filter_append]
  have h1 : List.filter (fun r : uc_mem_region => !(decide (r.begin = b) && decide (r.end_ = ee)))
      d = d := by
    rw [List.filter_eq_self]
    intro r hr
    have := hd r hr
    simp only [full_intersection, Bool.and_eq_false_iff, decide_eq_false_iff_not] at this
    simp only [Bool.not_eq_eq_eq_not, Bool.not_true, Bool.and_eq_false_iff,
      decide_eq_false_iff_not]
    omega
  simp only [h1]
  simp

theorem find_overlap_append_new (d : List uc_mem_region) (b ee q : Nat) (hbe : b ≤ ee)
    (hd : ∀ r ∈ d, full_intersection r b ee = false) :
    (d ++ [(⟨b, ee, q⟩ : uc_mem_region)]).find? (fun r => overlaps r b ee) = some ⟨b, ee, q⟩ := by
  have hnone : d.find? (fun r => overlaps r b ee) = none := by
    rw [List.find?_eq_none]
    intro r hr hov
    have := overlaps_imp_full_intersection r b ee hbe hov
    rw [hd r hr] at this
    exact Bool.false_ne_true this
  rw [List.find?_append, hnone]
  simp [overlaps, hbe]

theorem remap_entry_new_stable (eng : uc_policy) (d : List uc_mem_region)
    (b s q perms : Nat) (err : uc_err)
    (hbe : b ≤ extent_end b s) (h64 : extent_end b s < 2 ^ 64)
    (hd : ∀ r ∈ d, full_intersection r b (extent_end b s) = false)
    (hacc : eng.map_status d b s q = UC_ERR_OK)
    (hq : perms ||| q = q) :
    ∃ f e c, remap_entry eng (d ++ [(⟨b, extent_end b s, q⟩ : uc_mem_region)]) b s perms err
        ⟨b, extent_end b s, q⟩ =
      ⟨f, e, d ++ [(⟨b, extent_end b s, q⟩ : uc_mem_region)], c⟩ := by
  by_cases hun : eng.unmap_status (d ++ [(⟨b, extent_end b s, q⟩ : uc_mem_region)])
      (⟨b, extent_end b s, q⟩ : uc_mem_region).begin
      (region_size_of (⟨b, extent_end b s, q⟩ : uc_mem_region)) = UC_ERR_OK
  · have h1 := uc_mem_unmap_accepted eng _ (⟨b, extent_end b s, q⟩ : uc_mem_region) h64 hun
    rw [without_extent_append_new d b (extent_end b s) q hbe hd] at h1
    have h2 := uc_mem_map_ptr_accepted eng d b s q hacc
    refine ⟨true, UC_ERR_OK,
      [uc_call.unmap b (region_size_of (⟨b, extent_end b s, q⟩ : uc_mem_region)),
       uc_call.map_ptr b s q], ?_⟩
    unfold remap_entry
    rw [h1]
    simp only [hq, h2]
    simp
  · exact ⟨_, _, _, remap_entry_unmap_rejected eng _ b s perms err _ hun⟩

theorem second_call_stable (eng : uc_policy) (vm_region_64 : Nat → Option (Nat × Nat))
    (d : List uc_mem_region) (b s q perms address : Nat)
    (hrej : ∀ d b s p, eng.map_status d b s p = UC_ERR_OK →
      ∀ r ∈ d, full_intersection r b (extent_end b s) = false)
    (hhost : vm_region_64 address = some (b, s))
    (hna : ¬(address < b ∨ address ≥ wrap64 (b + s)))
    (hacc : eng.map_status d b s q = UC_ERR_OK)
    (hq : perms ||| q = q) :
    ∃ ok2 c2, mem_map_region_containing eng vm_region_64
        (d ++ [(⟨b, extent_end b s, q⟩ : uc_mem_region)]) address perms =
      map_outcome.returned ok2 (d ++ [(⟨b, extent_end b s, q⟩ : uc_mem_region)]) c2 := by
  obtain ⟨hbe, h64⟩ := no_abort_begin_le_end address b s hna
  have hd : ∀ r ∈ d, full_intersection r b (extent_end b s) = false := hrej d b s q hacc
  have hdirect : eng.map_status (d ++ [(⟨b, extent_end b s, q⟩ : uc_mem_region)]) b s perms ≠
      UC_ERR_OK := by
    intro hok
    have := hrej _ b s perms hok ⟨b, extent_end b s, q⟩ (by simp)
    simp [full_intersection, hbe] at this
  have hfind := find_overlap_append_new d b (extent_end b s) q hbe hd
  obtain ⟨f, e, c, hres⟩ := remap_entry_new_stable eng d b s q perms
    (eng.map_status (d ++ [(⟨b, extent_end b s, q⟩ : uc_mem_region)]) b s perms)
    hbe h64 hd hacc hq
  simp only [mem_map_region_containing, hhost, if_neg hna]
  rw [uc_mem_map_ptr_rejected eng _ b s perms hdirect]
  simp only [ne_eq, hdirect, not_false_eq_true, if_true]
  unfold mem_remap_region
  rw [remap_scan_some eng _ b s perms _ _ _ _ hfind, hres]
  split <;> exact ⟨_, _, rfl⟩

/-- C5, as stated, fails: with the host region `[0x1000,0x3000)` and the
directory `[0x1000,0x1FFF] r--`, `[0x2000,0x2FFF] r--`, the first call unmaps
the first entry, has its map rejected and returns false; the second call
then unmaps the other entry and maps the whole host region, so the directory
after the second call differs from the directory after the first. -/
theorem mem_map_region_containing_not_idempotent :
    mem_map_region_containing reference_engine (fun _ => some (0x1000, 0x2000))
        [⟨0x1000, 0x1FFF, 1⟩, ⟨0x2000, 0x2FFF, 1⟩] 0x1000 1 =
      map_outcome.returned false [⟨0x2000, 0x2FFF, 1⟩]
        [uc_call.map_ptr 0x1000 0x2000 1, uc_call.unmap 0x1000 0x1000,
         uc_call.map_ptr 0x1000 0x2000 1] ∧
    mem_map_region_containing reference_engine (fun _ => some (0x1000, 0x2000))
        [⟨0x2000, 0x2FFF, 1⟩] 0x1000 1 =
      map_outcome.returned true [⟨0x1000, 0x2FFF, 1⟩]
        [uc_call.map_ptr 0x1000 0x2000 1, uc_call.unmap 0x2000 0x1000,
         uc_call.map_ptr 0x1000 0x2000 1] ∧
    (⟨0x1000, 0x2FFF, 1⟩ : uc_mem_region) ∉ [(⟨0x2000, 0x2FFF, 1⟩ : uc_mem_region)] := by
  refine ⟨by decide, by decide, by decide⟩

/-- C5, amended: with an engine that accepts a map only when it intersects
no existing entry, whenever a call of `mem_map_region_containing` returns
true, or returns leaving the directory as it found it, a second call with
the same address and permissions returns as well and leaves the directory
exactly as the first call left it. -/
theorem mem_map_region_containing_idempotent (eng : uc_policy)
    (vm_region_64 : Nat → Option (Nat × Nat)) (d : List uc_mem_region) (address perms : Nat)
    (ok : Bool) (d1 : List uc_mem_region) (c1 : List uc_call)
    (hrej : ∀ d b s p, eng.map_status d b s p = UC_ERR_OK →
      ∀ r ∈ d, full_intersection r b (extent_end b s) = false)
    (h1 : mem_map_region_containing eng vm_region_64 d address perms =
      map_outcome.returned ok d1 c1)
    (hcase : ok = true ∨ d1 = d) :
    ∃ ok2 c2, mem_map_region_containing eng vm_region_64 d1 address perms =
      map_outcome.returned ok2 d1 c2 := by
  rcases hcase with hok | hsame
  · subst hok
    cases hh : vm_region_64 address with
    | none => simp [mem_map_region_containing, hh] at h1
    | some bs =>
      obtain ⟨b, s⟩ := bs
      simp only [mem_map_region_containing, hh] at h1
      by_cases hab : address < b ∨ address ≥ wrap64 (b + s)
      · rw [if_pos hab] at h1
        cases h1
      · rw [if_neg hab] at h1
        by_cases hm : eng.map_status d b s perms = UC_ERR_OK
        · rw [uc_mem_map_ptr_accepted eng d b s perms hm] at h1
          simp only [ne_eq, not_true_eq_false, if_false, map_outcome.returned.injEq,
            true_and] at h1
          obtain ⟨rfl, -⟩ := h1
          exact second_call_stable eng vm_region_64 d b s perms perms address hrej hh hab hm
            (lor_self_eq perms)
        · rw [uc_mem_map_ptr_rejected eng d b s perms hm] at h1
          simp only [ne_eq, hm, not_false_eq_true, if_true] at h1
          split at h1
          · cases h1
          · rename_i hres
            simp only [map_outcome.returned.injEq, true_and] at h1
            obtain ⟨rfl, -⟩ := h1
            have hfound : (mem_remap_region eng d b s perms
                (eng.map_status d b s perms)).found = true := by
              cases hfd : (mem_remap_region eng d b s perms (eng.map_status d b s perms)).found
              · exact absurd (Or.inr hfd) hres
              · rfl
            obtain ⟨e, -, hmap, hreg⟩ := mem_remap_region_found eng d b s perms _ hfound
            rw [hreg]
            exact second_call_stable eng vm_region_64 _ b s (perms ||| e.perms) perms address
              hrej hh hab hmap (lor_lor_self perms e.perms)
  · subst hsame
    exact ⟨ok, c1, h1⟩

/-- Witness for the amended C5: the host region `[0x1000,0x3000)` requested
`-w-` twice, starting from the directory `[0x2000,0x2FFF] r--`. -/
theorem mem_map_region_containing_idempotent_witness :
    mem_map_region_containing reference_engine (fun _ => some (0x1000, 0x2000))
        [⟨0x2000, 0x2FFF, 1⟩] 0x1800 2 =
      map_outcome.returned true [⟨0x1000, 0x2FFF, 3⟩]
        [uc_call.map_ptr 0x1000 0x2000 2, uc_call.unmap 0x2000 0x1000,
         uc_call.map_ptr 0x1000 0x2000 3] ∧
    ∃ ok2 c2, mem_map_region_containing reference_engine (fun _ => some (0x1000, 0x2000))
        [⟨0x1000, 0x2FFF, 3⟩] 0x1800 2 =
      map_outcome.returned ok2 [⟨0x1000, 0x2FFF, 3⟩] c2 :=
  ⟨by decide,
   mem_map_region_containing_idempotent reference_engine (fun _ => some (0x1000, 0x2000))
     [⟨0x2000, 0x2FFF, 1⟩] 0x1800 2 true [⟨0x1000, 0x2FFF, 3⟩]
     [uc_call.map_ptr 0x1000 0x2000 2, uc_call.unmap 0x2000 0x1000,
      uc_call.map_ptr 0x1000 0x2000 3]
     reference_engine_rejects_overlap (by decide) (Or.inl rfl)⟩

/-! ## Diagnostic dump -/

/-- C7 fails on the code: for the directory enumerated as
`[0x100000000,0x100000FFF]`, `[0x180001000,0x180001FFF]` (already ascending)
the comparator of line 34 is positive on (first, second) and negative on
(second, first), and the printed lines come out with descending begin
addresses. -/
theorem mem_print_uc_regions_descending :
    (mem_print_uc_regions (fun _ => none)
        [⟨0x100000000, 0x100000FFF, 5⟩, ⟨0x180001000, 0x180001FFF, 3⟩]).2.map
      (fun l => l.begin) = [0x180001000, 0x100000000] ∧
    0 < region_cmp ⟨0x100000000, 0x100000FFF, 5⟩ ⟨0x180001000, 0x180001FFF, 3⟩ ∧
    region_cmp ⟨0x180001000, 0x180001FFF, 3⟩ ⟨0x100000000, 0x100000FFF, 5⟩ < 0 := by
  refine ⟨by decide, by decide, by decide⟩

end Aah
